import Mathlib

/-!
Shallow embedding of the FUMIC molecule-reconstruction and classification
engine (`src/fumic.py`) in Lean 4.

The embedding follows the Python source function by function:
`pos_hits`, `ffpe_finder`, `pos_checker`, `sup_count`, and the per-record
part of `vcf_extract`.  Python dictionaries keyed by base characters are
modelled as association lists (`List (Char × _)`) with insert-or-replace
semantics; dictionary truthiness (`if d:`) of dictionaries that are either
the initial `{}` or a fully populated value is modelled with `Option`.
Python strings are modelled as `List Char` so that every operation is
kernel-reducible; `str.split(sep)` is modelled by `splitOnChar`.
A crash of the Python program (an exception with no matching handler,
e.g. the `IndexError` raised by `brc[1]` on an identifier without a `+`
separator, or the `KeyError` raised inside `sup_count`) is modelled by
`Except.error ()`.
-/

deriving instance DecidableEq for Except

namespace Fumic

/-- The six symbols counted by `pos_hits`: the four bases, `N` for any
other character, and `-` (gap) for a read not covering the position. -/
inductive Sym where
  | A : Sym
  | T : Sym
  | G : Sym
  | C : Sym
  | N : Sym
  | gap : Sym
deriving DecidableEq

/-- The base tally produced by `pos_hits`: the six counters
`n_a, n_t, n_g, n_c, n_n, n_d` of the source. -/
structure Tally where
  n_a : Nat
  n_t : Nat
  n_g : Nat
  n_c : Nat
  n_n : Nat
  n_d : Nat
deriving DecidableEq

/-- Dictionary lookup `tally[sym]` on the six-key dict returned by
`pos_hits`. -/
def Tally.get : Tally → Sym → Nat
  | t, Sym.A => t.n_a
  | t, Sym.T => t.n_t
  | t, Sym.G => t.n_g
  | t, Sym.C => t.n_c
  | t, Sym.N => t.n_n
  | t, Sym.gap => t.n_d

/-- Increment the counter of one symbol. -/
def Tally.incr : Tally → Sym → Tally
  | t, Sym.A => { t with n_a := t.n_a + 1 }
  | t, Sym.T => { t with n_t := t.n_t + 1 }
  | t, Sym.G => { t with n_g := t.n_g + 1 }
  | t, Sym.C => { t with n_c := t.n_c + 1 }
  | t, Sym.N => { t with n_n := t.n_n + 1 }
  | t, Sym.gap => { t with n_d := t.n_d + 1 }

/-- Sum of the six counters of a tally. -/
def Tally.total (t : Tally) : Nat :=
  t.n_a + t.n_t + t.n_g + t.n_c + t.n_n + t.n_d

/-- The empty tally (all six counters zero). -/
def Tally.zero : Tally := ⟨0, 0, 0, 0, 0, 0⟩

/-- Which of the six dictionary keys of a `pos_hits` tally a character
is, if any: `'A','T','G','C','N','-'` are the exact keys; any other
character is absent from the dict (a lookup with it raises `KeyError`
in Python). -/
def symOfChar (c : Char) : Option Sym :=
  if c = 'A' then some Sym.A
  else if c = 'T' then some Sym.T
  else if c = 'G' then some Sym.G
  else if c = 'C' then some Sym.C
  else if c = 'N' then some Sym.N
  else if c = '-' then some Sym.gap
  else none

/-- An aligned read, as used by `fumic.py`: mate role (`is_read1`),
strand (`is_reverse`), identifier (`query_name`), base sequence
(`query_sequence`) and the index-to-reference-coordinate mapping
returned by `get_reference_positions(full_length=True)` (`read_pos`,
with `none` at soft-clipped indices).  The field `hlen` is the
data-model invariant that the mapping covers the full query length. -/
structure Read where
  is_read1 : Bool
  is_reverse : Bool
  query_name : List Char
  query_sequence : List Char
  read_pos : List (Option Nat)
  hlen : read_pos.length = query_sequence.length

/-- Python `list.index(x)`, returning the first index of `x`,
or `none` where Python raises `ValueError`. -/
def listIdx (x : Option Nat) : List (Option Nat) → Option Nat
  | [] => none
  | y :: ys => if y = x then some 0 else (listIdx x ys).map (· + 1)

theorem listIdx_lt {x : Option Nat} :
    ∀ {l : List (Option Nat)} {i : Nat}, listIdx x l = some i → i < l.length := by
  intro l
  induction l with
  | nil => intro i h; simp [listIdx] at h
  | cons y ys ih =>
    intro i h
    simp only [listIdx] at h
    by_cases hy : y = x
    · simp [hy] at h
      subst h
      simp
    · simp [hy] at h
      obtain ⟨j, hj, hji⟩ := h
      subst hji
      have := ih hj
      simp [List.length_cons]
      omega

/-- Normalisation of one base character exactly as the `if/elif` chain
of `pos_hits` does it: `'A','T','G','C'` keep their bucket, every other
character (lower-case bases included) falls into the `N` bucket.
The comparison is on the exact character — there is no upper-casing. -/
def symOfBase (c : Char) : Sym :=
  if c = 'A' then Sym.A
  else if c = 'T' then Sym.T
  else if c = 'G' then Sym.G
  else if c = 'C' then Sym.C
  else Sym.N

/-- The symbol one read contributes at `record_pos` in `pos_hits`:
look `record_pos` up in `read_pos` (Python `read_pos.index(record_pos)`);
if found at index `i`, classify the base at index `i` of the query
sequence; the `ValueError` branch (coordinate absent) counts a gap.
The `getD` default is unreachable because of `Read.hlen`. -/
def readSym (read : Read) (record_pos : Nat) : Sym :=
  match listIdx (some record_pos) read.read_pos with
  | none => Sym.gap
  | some i => symOfBase (read.query_sequence.getD i 'N')

/-- Embedding of `pos_hits`: tally the base each read of the list shows at
`record_pos`. -/
def pos_hits (inp_lst : List Read) (record_pos : Nat) : Tally :=
  inp_lst.foldl (fun t read => t.incr (readSym read record_pos)) Tally.zero

theorem Tally.total_incr (t : Tally) (s : Sym) : (t.incr s).total = t.total + 1 := by
  cases s <;> simp [Tally.incr, Tally.total] <;> omega

theorem pos_hits_total_aux (p : Nat) :
    ∀ (lst : List Read) (t : Tally),
      (lst.foldl (fun t read => t.incr (readSym read p)) t).total = t.total + lst.length := by
  intro lst
  induction lst with
  | nil => intro t; simp
  | cons r rs ih =>
    intro t
    simp only [List.foldl_cons, List.length_cons]
    rw [ih, Tally.total_incr]
    omega

/-- A Python dict keyed by base characters whose values are the pair of
full tallies `{"Forward Molecule": f_hits, "Reverse Molecule": r_hits}`
stored by `ffpe_finder`.  Association list with insert-or-replace
semantics, insertion-ordered like a Python dict. -/
def CDict := List (Char × Tally × Tally)
deriving DecidableEq

/-- Python dict assignment `d[k] = v`: replace in place if the key exists,
otherwise append at the end. -/
def dinsert (k : Char) (v : Tally × Tally) : CDict → CDict
  | [] => [(k, v)]
  | (k', v') :: rest => if k' = k then (k, v) :: rest else (k', v') :: dinsert k v rest

/-- Python dict membership and lookup, `k in d` / `d[k]`. -/
def dlookup (k : Char) : CDict → Option (Tally × Tally)
  | [] => none
  | (k', v') :: rest => if k' = k then some v' else dlookup k rest

/-- The four category dicts built by `ffpe_finder`
(`ffpe_dict`, `mut_dict`, `ref_dict`, `out_dict`), returned as
`{"FFPE Hits": …, "Mutation Hits": …, "Reference Hits": …,
"Other Mutation Hits": …}`. -/
structure VarDict where
  ffpe_dict : CDict
  mut_dict : CDict
  ref_dict : CDict
  out_dict : CDict
deriving DecidableEq

/-- The initial state of `ffpe_finder`: four empty dicts. -/
def VarDict.empty : VarDict := ⟨[], [], [], []⟩

/-- One iteration of the double loop of `ffpe_finder` for the pair
`(var_call, r_base)`.  `f_hits`/`r_hits` are the tallies the source
reads from `base_res["Forward Hits"][umi_key]` /
`base_res["Reverse Hits"][umi_key]` (lookups that always succeed at the
call site in `pos_checker`, which stores them under the current key
just before the call).  A `true` flag models the `KeyError` raised by a
tally lookup with a character that is not one of the six keys; the
`except KeyError` of the source catches it, so the loop stops and the
state built so far is returned.  Note the short-circuit order of the
source: `f_hits[r_base]` is only evaluated when the three `var_call`
conditions have all failed. -/
def ffpe_step (f_hits r_hits : Tally) (var_call r_base : Char) (acc : VarDict) :
    Bool × VarDict :=
  match symOfChar var_call with
  | none => (true, acc)
  | some sv =>
    let fv := f_hits.get sv
    let rv := r_hits.get sv
    if fv > 0 ∧ rv > 0 then
      (false, { acc with mut_dict := dinsert var_call (f_hits, r_hits) acc.mut_dict })
    else if fv > 0 ∧ rv = 0 then
      (false, { acc with ffpe_dict := dinsert var_call (f_hits, r_hits) acc.ffpe_dict })
    else if rv > 0 ∧ fv = 0 then
      (false, { acc with ffpe_dict := dinsert var_call (f_hits, r_hits) acc.ffpe_dict })
    else
      match symOfChar r_base with
      | none => (true, acc)
      | some sr =>
        if f_hits.get sr > 0 ∧ r_hits.get sr > 0 then
          (false, { acc with ref_dict := dinsert r_base (f_hits, r_hits) acc.ref_dict })
        else
          (false, { acc with mut_dict := dinsert var_call (f_hits, r_hits) acc.mut_dict })

/-- The double loop of `ffpe_finder`, with the `except KeyError`
of the source ending the iteration early but keeping the dicts filled
so far. -/
def ffpe_loop (f_hits r_hits : Tally) : List (Char × Char) → VarDict → VarDict
  | [], acc => acc
  | (v, r) :: rest, acc =>
    match ffpe_step f_hits r_hits v r acc with
    | (true, acc') => acc'
    | (false, acc') => ffpe_loop f_hits r_hits rest acc'

/-- Embedding of `ffpe_finder`: classify one paired molecule group.  `ref_var` is the
set of alternate alleles (`for var_call in ref_var`), `ref_base` the set
of reference bases (`for r_base in ref_base`); the double loop visits
their product in order. -/
def ffpe_finder (f_hits r_hits : Tally) (ref_var ref_base : List Char) : VarDict :=
  ffpe_loop f_hits r_hits
    (ref_var.flatMap (fun v => ref_base.map (fun r => (v, r)))) VarDict.empty

/-! ### Molecule grouping (`pos_checker`, first loop) -/

/-- Python `s.split(sep)` for a one-character separator, on `List Char`:
always returns a non-empty list; adjacent separators yield empty
fields. -/
def splitOnChar (sep : Char) : List Char → List (List Char)
  | [] => [[]]
  | c :: cs =>
    let r := splitOnChar sep cs
    if c = sep then [] :: r
    else
      match r with
      | [] => [[c]]
      | h :: t => (c :: h) :: t

/-- UMI extraction of `pos_checker`: `qn.split("_")[-1].split("+")`,
then `brc[0]` and `brc[1]`.  `brc[1]` raises an uncaught `IndexError`
when the barcode field contains no `+`; that is the `none` case. -/
def umi_parse (qn : List Char) : Option (List Char × List Char) :=
  let qn_spl := splitOnChar '_' qn
  let umi := qn_spl.getLastD []
  let brc := splitOnChar '+' umi
  match brc with
  | b0 :: b1 :: _ => some (b0, b1)
  | _ => none

/-- The two logical strands of the original molecule. -/
inductive Strand where
  | forward_m : Strand
  | reverse_m : Strand
deriving DecidableEq

/-- The strand label computed by `pos_checker` from mate role ×
read orientation (`strand` starts as `"Forward_Molecule"` and is
flipped in the `read1 ∧ reverse` and `¬read1 ∧ ¬reverse` cases). -/
def read_strand (read : Read) : Strand :=
  if read.is_read1 then
    if read.is_reverse then Strand.reverse_m else Strand.forward_m
  else
    if read.is_reverse then Strand.forward_m else Strand.reverse_m

/-- The molecule key `umi_id` computed by `pos_checker`: the two
barcodes joined with `"_"`, swapped in the same two cases in which the
strand is flipped. -/
def read_umi_id (read : Read) : Option (List Char) :=
  (umi_parse read.query_name).map (fun p =>
    let uml := p.1
    let umr := p.2
    if read.is_read1 then
      if read.is_reverse then umr ++ ['_'] ++ uml else uml ++ ['_'] ++ umr
    else
      if read.is_reverse then uml ++ ['_'] ++ umr else umr ++ ['_'] ++ uml)

/-- One group of `umi_dict`: the key and the
`{"Forward_Molecule": […], "Reverse_Molecule": […]}` pair of read
lists. -/
def UmiGroup := List Char × List Read × List Read

/-- Append a read to the proper strand list of its group, creating the
group at the end of the dict on first encounter (the
`try/except KeyError` insert of the source). -/
def umi_upsert (uid : List Char) (strand : Strand) (read : Read) :
    List UmiGroup → List UmiGroup
  | [] =>
    match strand with
    | Strand.forward_m => [(uid, [read], [])]
    | Strand.reverse_m => [(uid, [], [read])]
  | (k, fl, rl) :: rest =>
    if k = uid then
      match strand with
      | Strand.forward_m => (k, fl ++ [read], rl) :: rest
      | Strand.reverse_m => (k, fl, rl ++ [read]) :: rest
    else
      (k, fl, rl) :: umi_upsert uid strand read rest

/-- The first loop of `pos_checker`, threading the dict built so far.
`Except.error ()` models the uncaught `IndexError` of a read whose
identifier has no parseable UMI pair (only `KeyError` is caught by the
source, so the whole call aborts). -/
def build_umi_aux : List Read → List UmiGroup → Except Unit (List UmiGroup)
  | [], acc => Except.ok acc
  | read :: rest, acc =>
    match read_umi_id read with
    | none => Except.error ()
    | some uid => build_umi_aux rest (umi_upsert uid (read_strand read) read acc)

/-- Build `umi_dict` from the fetched reads, in read order. -/
def build_umi_dict (bam_lst : List Read) : Except Unit (List UmiGroup) :=
  build_umi_aux bam_lst []

/-! ### The group loop of `pos_checker` -/

/-- One entry of `pos_res`:
`{"Forward Single": f_s_hits, "Reverse Single": r_s_hits,
"Variant Hits": var_dict}`.  Each of the three values is either the
initial empty dict `{}` (falsy, modelled `none`) or a populated value
(truthy — a tally always has its six keys and a `ffpe_finder` result
always has its four keys). -/
structure PosEntry where
  f_single : Option Tally
  r_single : Option Tally
  var_hits : Option VarDict
deriving DecidableEq

/-- The variables of `pos_checker` that live across iterations of the
group loop: `f_s_hits`, `r_s_hits`, `var_dict` are initialised once
before the loop and never reset, so a value computed for one group is
still in scope when a later group's `pos_res` entry is assembled. -/
structure CheckSt where
  f_s_hits : Option Tally
  r_s_hits : Option Tally
  var_dict : Option VarDict
  pos_res : List (List Char × PosEntry)

/-- One iteration of the group loop of `pos_checker`.  The source reads:
`if f_lst:` / nested `if r_lst:` (the paired case), `elif f_lst:`
(unreachable — when `f_lst` is non-empty the first branch was taken, so
a forward-only group computes nothing), `elif r_lst:` / nested
`if not f_lst:` (the reverse-singleton case).  Afterwards
`pos_res[umi_key]` is assigned from the current, possibly stale,
`f_s_hits` / `r_s_hits` / `var_dict`. -/
def group_step (record_pos : Nat) (ref_var ref_base : List Char)
    (st : CheckSt) (g : UmiGroup) : CheckSt :=
  let umi_key := g.1
  let f_lst := g.2.1
  let r_lst := g.2.2
  let st' :=
    match f_lst, r_lst with
    | _ :: _, _ :: _ =>
      let fh := pos_hits f_lst record_pos
      let rh := pos_hits r_lst record_pos
      { st with var_dict := some (ffpe_finder fh rh ref_var ref_base) }
    | _ :: _, [] => st
    | [], _ :: _ => { st with r_s_hits := some (pos_hits r_lst record_pos) }
    | [], [] => st
  { st' with
    pos_res := st'.pos_res ++ [(umi_key, ⟨st'.f_s_hits, st'.r_s_hits, st'.var_dict⟩)] }

/-- Embedding of `pos_checker`: group the fetched reads by molecule key, then run the
group loop.  The dict comprehension `{k: v for k, v in … if v}` of the
source filters on the truthiness of the two-key strand dict, which is
always truthy, so it keeps every group.  The outer `except KeyError`
of the source can only fire for exceptions none of the inner code
raises; the `IndexError` of a malformed identifier is not a `KeyError`
and escapes (`Except.error`). -/
def pos_checker (bam_lst : List Read) (record_pos : Nat)
    (ref_var ref_base : List Char) : Except Unit (List (List Char × PosEntry)) :=
  (build_umi_dict bam_lst).map (fun umi_dict =>
    (umi_dict.foldl (group_step record_pos ref_var ref_base)
      ⟨none, none, none, []⟩).pos_res)

/-! ### `sup_count` -/

/-- The three counters of one side (`alt_sup` or `ref_sup`) of
`sup_count`, keyed by allele character in allele order. -/
structure SupSide where
  f_single : List (Char × Nat)
  r_single : List (Char × Nat)
  paired : List (Char × Nat)
deriving DecidableEq

/-- The pair `{"Variant": alt_sup, "Reference": ref_sup}`. -/
structure PosSup where
  variant : SupSide
  reference : SupSide
deriving DecidableEq

/-- Lookup in one counter list. -/
def lookupNat (k : Char) : List (Char × Nat) → Option Nat
  | [] => none
  | (k', v) :: rest => if k' = k then some v else lookupNat k rest

/-- Membership and lookup, `alt in tally` / `tally[alt]`, of a single-strand tally for the inner
`if alt in …: … += …[alt]` pattern of `sup_count`: the six keys are
always present, so membership is exactly validity of the character. -/
def tallyAdd (a : Char) : Option Tally → Nat
  | none => 0
  | some t =>
    match symOfChar a with
    | none => 0
    | some s => t.get s

/-- Contribution of one category dict to `…_sup["Paired"][a]` in the
alternate-allele loop: `if cat: if a in cat:
paired += cat[a]["Forward Molecule"][a] + cat[a]["Reverse Molecule"][a]`.
When the key is present the stored character equals `a`, so the inner
tally lookups succeed exactly when `symOfChar a` does; a key present
with an invalid character cannot be produced by `ffpe_finder`, and the
lookup would raise `KeyError` (the `none` result). -/
def pairedAdd (a : Char) (cat : CDict) : Option Nat :=
  match dlookup a cat with
  | none => some 0
  | some (ft, rt) =>
    match symOfChar a with
    | none => none
    | some s => some (ft.get s + rt.get s)

/-- The body of the alternate-allele loop of `sup_count` for one
`umi_key`: independent `if` statements for "Forward Single",
"Reverse Single", and (under `if Variant Hits:`) for each of the four
categories.  Result `(fs, rs, paired)` additions, or `none` for an
uncaught `KeyError`. -/
def alt_entry_add (a : Char) (e : PosEntry) : Option (Nat × Nat × Nat) :=
  let fs := tallyAdd a e.f_single
  let rs := tallyAdd a e.r_single
  match e.var_hits with
  | none => some (fs, rs, 0)
  | some vd => do
    let p1 ← pairedAdd a vd.ffpe_dict
    let p2 ← pairedAdd a vd.mut_dict
    let p3 ← pairedAdd a vd.ref_dict
    let p4 ← pairedAdd a vd.out_dict
    pure (fs, rs, p1 + p2 + p3 + p4)

/-- The body of the reference-base loop of `sup_count` for one
`umi_key`.  Unlike the alternate loop this is an `if/elif/elif` chain,
so a group with a (possibly stale) non-empty "Forward Single" never
reaches the "Reverse Single" or paired cases; and in the
"Mutation Hits" branch the source indexes the category dict with the
string `"Forward Molecule"` (lines 162-166), which raises an uncaught
`KeyError` whenever `ref` is one of its keys.  "Reference Hits" and
"Other Mutation Hits" are joined by `elif`. -/
def ref_entry_add (r : Char) (e : PosEntry) : Option (Nat × Nat × Nat) :=
  match e.f_single with
  | some t => some (tallyAdd r (some t), 0, 0)
  | none =>
    match e.r_single with
    | some t => some (0, tallyAdd r (some t), 0)
    | none =>
      match e.var_hits with
      | none => some (0, 0, 0)
      | some vd => do
        let p1 ← pairedAdd r vd.ffpe_dict
        let _ ← (match dlookup r vd.mut_dict with
                 | some _ => (none : Option Nat)
                 | none => some 0)
        let p3 ← pairedAdd r vd.ref_dict
        let p4 ← if vd.ref_dict = [] then pairedAdd r vd.out_dict else some 0
        pure (0, 0, p1 + p3 + p4)

/-- Accumulate one allele's three counters over all `umi_key` entries. -/
def sup_fold (add : Char → PosEntry → Option (Nat × Nat × Nat)) (a : Char) :
    List (List Char × PosEntry) → Option (Nat × Nat × Nat)
  | [] => some (0, 0, 0)
  | (_, e) :: rest => do
    let x ← add a e
    let y ← sup_fold add a rest
    pure (x.1 + y.1, x.2.1 + y.2.1, x.2.2 + y.2.2)

/-- Embedding of `sup_count`: the alternate-allele loop over `n_alt`, then the
reference-base loop over `n_ref`; an uncaught `KeyError` anywhere
aborts the whole call (`sup_count` contains no `try`). -/
def sup_count (input_dict : List (List Char × PosEntry))
    (n_ref n_alt : List Char) : Except Unit PosSup :=
  let altv := n_alt.mapM (fun a => (sup_fold alt_entry_add a input_dict).map (a, ·))
  let refv := n_ref.mapM (fun r => (sup_fold ref_entry_add r input_dict).map (r, ·))
  match altv, refv with
  | some av, some rv =>
    Except.ok
      ⟨⟨av.map (fun p => (p.1, p.2.1)), av.map (fun p => (p.1, p.2.2.1)),
        av.map (fun p => (p.1, p.2.2.2))⟩,
       ⟨rv.map (fun p => (p.1, p.2.1)), rv.map (fun p => (p.1, p.2.2.1)),
        rv.map (fun p => (p.1, p.2.2.2))⟩⟩
  | _, _ => Except.error ()

/-! ### `vcf_extract` (per-record part) -/

/-- A variant record as `vcf_extract` reads it: contig name, 1-based
position, reference allele string and alternate allele strings. -/
structure VcfRecord where
  chrom : String
  pos : Nat
  ref : List Char
  alts : List (List Char)
deriving DecidableEq

/-- The fetch interval of `vcf_extract`:
`bam_file.fetch('chr8', record_pos, record_pos + 1)` with
`record_pos = n_pos - 1` — the contig is the fixed literal `'chr8'`,
the record's own chromosome is never consulted. -/
def fetch_interval (record : VcfRecord) : String × Nat × Nat :=
  ("chr8", record.pos - 1, (record.pos - 1) + 1)

/-- Python `set(...)` of the characters of a string, determinised to
first-occurrence order (only the cardinality and, for singleton sets,
the unique element matter downstream). -/
def dedupChars : List Char → List Char
  | [] => []
  | c :: cs => c :: (dedupChars cs).filter (· ≠ c)

/-- The annotated output record: the copied record, the `UMI` sample
field, and whether the `FFPE` filter was added. -/
structure OutRecord where
  vrec : VcfRecord
  umi : String
  ffpe_filter : Bool
deriving DecidableEq

/-- One `Paired:ForwardSingle:ReverseSingle` triple, as formatted into
`var_sd` / `ref_sd`.  The lookups always find their key (the counter
lists are built over exactly these alleles); `getD 0` is unreachable. -/
def sd_string (side : SupSide) (k : Char) : String :=
  Nat.repr ((lookupNat k side.paired).getD 0) ++ ":" ++
  Nat.repr ((lookupNat k side.f_single).getD 0) ++ ":" ++
  Nat.repr ((lookupNat k side.r_single).getD 0)

/-- The `for umi_key in ffpe_data: if … ["Variant Hits"]["FFPE Hits"]:`
check that adds the `FFPE` filter. -/
def ffpe_flag (ffpe_data : List (List Char × PosEntry)) : Bool :=
  ffpe_data.any (fun p =>
    match p.2.var_hits with
    | some vd =>
      match vd.ffpe_dict with
      | [] => false
      | _ :: _ => true
    | none => false)

/-- The body of the record loop of `vcf_extract` for one record, in
terms of the only record fields the loop body reads (1-based position,
reference string, alternate strings — the chromosome is not among
them): build the character sets of `ref` and of the joined `alts`;
skip the record entirely (`continue`, i.e. `none`) when either set has
more than one element; otherwise fetch reads on the fixed `chr8`
interval, run `pos_checker` and `sup_count`, format `var_sd`/`ref_sd`
(the loops overwrite, keeping the last allele's string), and report
whether any group's "Variant Hits" has a non-empty "FFPE Hits". -/
def record_core (bam : String × Nat × Nat → List Read)
    (pos : Nat) (ref : List Char) (alts : List (List Char)) :
    Option (Except Unit (String × Bool)) :=
  let n_ref := dedupChars ref
  let n_alt := dedupChars alts.flatten
  if n_ref.length > 1 ∨ n_alt.length > 1 then none
  else some (do
    let record_pos := pos - 1
    let bam_lst := bam ("chr8", record_pos, record_pos + 1)
    let ffpe_data ← pos_checker bam_lst record_pos n_alt n_ref
    let pos_sup ← sup_count ffpe_data n_ref n_alt
    let var_sd := n_alt.foldl (fun _ v => sd_string pos_sup.variant v) ""
    let ref_sd := n_ref.foldl (fun _ r => sd_string pos_sup.reference r) ""
    Except.ok (var_sd ++ ref_sd, ffpe_flag ffpe_data))

/-- One record of the loop of `vcf_extract`: the computed annotation
attached to the copied record (`n_cop`). -/
def record_process (bam : String × Nat × Nat → List Read) (record : VcfRecord) :
    Option (Except Unit OutRecord) :=
  (record_core bam record.pos record.ref record.alts).map
    (Except.map (fun a => ⟨record, a.1, a.2⟩))

/-- The record loop of `vcf_extract`: records whose `record_process` is
`none` are skipped (`continue`) and not written; every processed record
is written in order.  A crash while processing a record aborts the
run. -/
def vcf_extract (bam : String × Nat × Nat → List Read) :
    List VcfRecord → Except Unit (List OutRecord)
  | [] => Except.ok []
  | record :: rest =>
    match record_process bam record with
    | none => vcf_extract bam rest
    | some (Except.error e) => Except.error e
    | some (Except.ok out) => (vcf_extract bam rest).map (fun l => out :: l)

/-- Just the annotation a record receives (UMI sample string and FFPE
filter flag), without the copied record itself: exactly what
`record_process` attaches to the record. -/
def record_annotation (bam : String × Nat × Nat → List Read) (record : VcfRecord) :
    Option (Except Unit (String × Bool)) :=
  record_core bam record.pos record.ref record.alts

/-! ### Extraction helpers for stating the claims -/

/-- The aggregated `["Variant"]["Paired"][k]` count of a `sup_count`
result (`none` when the call crashed or the allele is absent). -/
def altPairedCount (r : Except Unit PosSup) (k : Char) : Option Nat :=
  match r with
  | Except.ok s => lookupNat k s.variant.paired
  | Except.error _ => none

/-- The aggregated `["Reference"]["Paired"][k]` count. -/
def refPairedCount (r : Except Unit PosSup) (k : Char) : Option Nat :=
  match r with
  | Except.ok s => lookupNat k s.reference.paired
  | Except.error _ => none

/-- The aggregated `["Variant"]["Forward Single"][k]` count. -/
def altForwardSingleCount (r : Except Unit PosSup) (k : Char) : Option Nat :=
  match r with
  | Except.ok s => lookupNat k s.variant.f_single
  | Except.error _ => none

/-! ### Concrete fixtures -/

/-- A first-in-pair forward read showing `C` at coordinate 0, with UMI
pair `AAA`/`TTT`; its molecule key is `AAA_TTT`, strand
`Forward_Molecule`. -/
def readFwdC : Read :=
  { is_read1 := true, is_reverse := false,
    query_name := "read_AAA+TTT".toList,
    query_sequence := ['C'], read_pos := [some 0], hlen := rfl }

/-- A first-in-pair reverse read showing `T` at coordinate 0, with UMI
pair `TTT`/`AAA`; its molecule key is also `AAA_TTT`, strand
`Reverse_Molecule`: the mate of `readFwdC`'s molecule. -/
def readRevT : Read :=
  { is_read1 := true, is_reverse := true,
    query_name := "read_TTT+AAA".toList,
    query_sequence := ['T'], read_pos := [some 0], hlen := rfl }

/-- A first-in-pair reverse read showing `T` at coordinate 0 with a
different UMI pair: alone it forms a reverse-singleton molecule group
`GGG_CCC`. -/
def readRevSingB : Read :=
  { is_read1 := true, is_reverse := true,
    query_name := "read_CCC+GGG".toList,
    query_sequence := ['T'], read_pos := [some 0], hlen := rfl }

/-- A read whose identifier has no `+` separator in its UMI field. -/
def readBadUmi : Read :=
  { is_read1 := true, is_reverse := false,
    query_name := "read1".toList,
    query_sequence := ['T'], read_pos := [some 0], hlen := rfl }

/-- A read whose coordinate mapping does not contain coordinate 0: a
deletion spanning the queried position. -/
def readDel : Read :=
  { is_read1 := true, is_reverse := false,
    query_name := "read_AAA+TTT".toList,
    query_sequence := ['A'], read_pos := [some 5], hlen := rfl }

/-- A read source returning the FFPE-scenario pair for every fetch. -/
def bam1 (_ : String × Nat × Nat) : List Read := [readFwdC, readRevT]

/-- Forward tally `{C:1}` (all other symbols 0). -/
def tallyC : Tally := ⟨0, 0, 0, 1, 0, 0⟩

/-- Reverse tally `{T:1}`. -/
def tallyT : Tally := ⟨0, 1, 0, 0, 0, 0⟩

/-- Tally `{N:1}`: a strand showing only an ambiguous base. -/
def tallyN : Tally := ⟨0, 0, 0, 0, 1, 0⟩

/-- The SNV record of the FFPE scenario: position 1, reference `T`,
alternate `C`. -/
def rec1 : VcfRecord := ⟨"chr8", 1, ['T'], [['C']]⟩

/-- A record whose reference-allele character set has two elements. -/
def recBad : VcfRecord := ⟨"chr8", 1, ['T', 'A'], [['C']]⟩

/-- The `sup_count` aggregation of the single-group FFPE scenario:
forward tally `{C:1}`, reverse tally `{T:1}`, reference `T`,
alternate `C`. -/
def c1_sup : Except Unit PosSup :=
  (pos_checker [readFwdC, readRevT] 0 ['C'] ['T']).bind
    (fun d => sup_count d ['T'] ['C'])

/-- The position processed with the paired FFPE group first and the
reverse-singleton group second. -/
def c7_sup_order1 : Except Unit PosSup :=
  (pos_checker [readFwdC, readRevT, readRevSingB] 0 ['C'] ['T']).bind
    (fun d => sup_count d ['T'] ['C'])

/-- The same reads with the reverse-singleton group's read first, so the
groups are processed in the opposite order. -/
def c7_sup_order2 : Except Unit PosSup :=
  (pos_checker [readRevSingB, readFwdC, readRevT] 0 ['C'] ['T']).bind
    (fun d => sup_count d ['T'] ['C'])

/-! ### Helper lemmas -/

/-- The step function `ffpe_step` never touches `out_dict`. -/
theorem ffpe_step_out_dict (f r : Tally) (v rb : Char) (acc : VarDict) :
    ((ffpe_step f r v rb acc).2).out_dict = acc.out_dict := by
  unfold ffpe_step
  cases symOfChar v with
  | none => rfl
  | some sv =>
    simp only
    split_ifs
    · rfl
    · rfl
    · rfl
    · cases symOfChar rb with
      | none => rfl
      | some sr =>
        simp only
        split_ifs <;> rfl

/-- The loop `ffpe_loop` never touches `out_dict`. -/
theorem ffpe_loop_out_dict (f r : Tally) :
    ∀ (l : List (Char × Char)) (acc : VarDict),
      (ffpe_loop f r l acc).out_dict = acc.out_dict := by
  intro l
  induction l with
  | nil => intro acc; rfl
  | cons p rest ih =>
    intro acc
    obtain ⟨v, rb⟩ := p
    simp only [ffpe_loop]
    rcases hstep : ffpe_step f r v rb acc with ⟨b, acc'⟩
    have hout : acc'.out_dict = acc.out_dict := by
      have := ffpe_step_out_dict f r v rb acc
      rw [hstep] at this
      exact this
    cases b
    · rw [ih acc', hout]
    · exact hout

/-- On singleton allele lists the double loop of `ffpe_finder` is a
single `ffpe_step` from the empty state. -/
theorem ffpe_finder_single (f r : Tally) (v rb : Char) :
    ffpe_finder f r [v] [rb] = (ffpe_step f r v rb VarDict.empty).2 := by
  have h : ffpe_finder f r [v] [rb] = ffpe_loop f r [(v, rb)] VarDict.empty := rfl
  rw [h]
  simp only [ffpe_loop]
  rcases hstep : ffpe_step f r v rb VarDict.empty with ⟨b, acc⟩
  cases b <;> simp [ffpe_loop]

/-! ### The claims -/

/-- C1 (counterexample): in the FFPE-artifact scenario — one paired
molecule group with forward tally `{C:1}`, reverse tally `{T:1}`,
reference allele `T`, alternate allele `C` — the aggregated Paired
count for the reference allele `T` is 0, not 1 as claimed: in the
reference-base loop of `sup_count` the lookup `ref in … ["FFPE Hits"]`
is against a dict keyed by the alternate allele only, so an FFPE hit
never contributes to the reference allele's Paired counter. -/
theorem c1_paired_ref_not_one : refPairedCount c1_sup 'T' ≠ some 1 := by decide

/-- C1 (amended): in the FFPE-artifact scenario the classifier produces
an FFPE Hit, the aggregated Paired count for `C` is 1, the aggregated
Paired count for `T` is 0, and the record's FFPE filter is set (the full
record pipeline annotates the record with UMI string `1:0:0` + `0:0:0`
and adds the FFPE filter). -/
theorem c1_ffpe_scenario :
    (ffpe_finder tallyC tallyT ['C'] ['T']).ffpe_dict = [('C', (tallyC, tallyT))] ∧
    altPairedCount c1_sup 'C' = some 1 ∧
    refPairedCount c1_sup 'T' = some 0 ∧
    record_annotation bam1 rec1 = some (Except.ok ("1:0:00:0:0", true)) := by decide

/-- C2 (code bug): a forward-singleton molecule group contributes
nothing at all.  The group branch of `pos_checker` reads
`if f_lst: if r_lst: …` followed by `elif f_lst:` — the `elif` is
unreachable whenever `f_lst` is non-empty, so for a group with only
forward reads no single-strand tally is ever computed: its `pos_res`
entry has an empty "Forward Single" dict and the Forward-Single counter
of the supported allele stays 0, although the read's tally (`{C:1}`)
supports it. -/
theorem c2_forward_singleton_dropped :
    pos_checker [readFwdC] 0 ['C'] ['T'] =
      Except.ok [("AAA_TTT".toList, ⟨none, none, none⟩)] ∧
    altForwardSingleCount ((pos_checker [readFwdC] 0 ['C'] ['T']).bind
      (fun d => sup_count d ['T'] ['C'])) 'C' = some 0 ∧
    pos_hits [readFwdC] 0 = tallyC := by decide

/-- C3 (code bug): a paired group satisfying none of the Mutation, FFPE
or Reference rules (here both strands show only `N`) is assigned to
"Mutation Hits" by the final `else` of `ffpe_finder`, and
"Other Mutation Hits" (`out_dict`) stays empty; indeed `out_dict` is
never written anywhere in `ffpe_finder`, so the Other category is
always silently empty. -/
theorem c3_other_category_never_populated :
    (ffpe_finder tallyN tallyN ['C'] ['T']).mut_dict = [('C', (tallyN, tallyN))] ∧
    (ffpe_finder tallyN tallyN ['C'] ['T']).ffpe_dict = [] ∧
    (ffpe_finder tallyN tallyN ['C'] ['T']).ref_dict = [] ∧
    (∀ (f r : Tally) (rv rb : List Char), (ffpe_finder f r rv rb).out_dict = []) := by
  refine ⟨by decide, by decide, by decide, ?_⟩
  intro f r rv rb
  exact ffpe_loop_out_dict f r _ VarDict.empty

/-- C4 (code bug): a read whose identifier has no `+`-separated UMI pair
makes `brc[1]` raise an `IndexError`; `pos_checker` catches only
`KeyError`, so the exception escapes and the whole position is lost —
including the perfectly well-formed read in the same list, which on its
own would have been grouped and counted. -/
theorem c4_malformed_umi_aborts_position :
    pos_checker [readBadUmi, readFwdC] 0 ['C'] ['T'] = Except.error () ∧
    umi_parse readBadUmi.query_name = none ∧
    pos_checker [readFwdC] 0 ['C'] ['T'] ≠ Except.error () := by decide

/-- C5 (counterexample): a record whose reference-character set has two
elements (`ref = "TA"`) is skipped by `continue` before the
`n_vcf.write(n_cop)` call, so it is not passed through to the output at
all: the output of a one-record file is empty, while the claim says the
record appears in the output unannotated. -/
theorem c5_skipped_record_not_passed_through :
    vcf_extract bam1 [recBad] = Except.ok [] ∧
    dedupChars recBad.ref = ['T', 'A'] := by decide

/-- C5 (amended): a record whose reference or alternate character set
has more than one element is skipped whole — no partial processing, no
output record — and processing continues with the remaining records
exactly as if the record were absent. -/
theorem c5_unsupported_record_skipped (bam : String × Nat × Nat → List Read)
    (record : VcfRecord) (rest : List VcfRecord)
    (h : (dedupChars record.ref).length > 1 ∨
         (dedupChars record.alts.flatten).length > 1) :
    vcf_extract bam (record :: rest) = vcf_extract bam rest := by
  have hcore : record_core bam record.pos record.ref record.alts = none := by
    simp only [record_core]
    rw [if_pos h]
  have hnone : record_process bam record = none := by
    simp [record_process, hcore]
  rw [vcf_extract, hnone]

/-- C5 witness: the two-element record `recBad` followed by the SNV
record `rec1` yields the same output as `rec1` alone. -/
theorem c5_unsupported_record_skipped_witness :
    vcf_extract bam1 (recBad :: [rec1]) = vcf_extract bam1 [rec1] :=
  c5_unsupported_record_skipped bam1 recBad [rec1] (by decide)

/-- C6 (confirmed): if the index-to-coordinate mapping of a read
contains the target coordinate at index `i`, the base caller returns
the normalisation of the base at index `i` of the query sequence, where
normalisation keeps `A`, `T`, `G`, `C` and maps every other character —
lower-case bases included — to `N`; if the coordinate is absent, it
returns the gap symbol. -/
theorem c6_base_call_correct (read : Read) (p i : Nat)
    (h : listIdx (some p) read.read_pos = some i) :
    (∃ c, read.query_sequence.get? i = some c ∧
      readSym read p = symOfBase c ∧ readSym read p ≠ Sym.gap) ∧
    (∀ read' : Read, listIdx (some p) read'.read_pos = none →
      readSym read' p = Sym.gap) ∧
    (∀ c : Char, ¬(c = 'A' ∨ c = 'T' ∨ c = 'G' ∨ c = 'C') →
      symOfBase c = Sym.N) := by
  refine ⟨?_, ?_, ?_⟩
  · have hi : i < read.read_pos.length := listIdx_lt h
    have hi' : i < read.query_sequence.length := by rw [← read.hlen]; exact hi
    refine ⟨read.query_sequence.getD i 'N', ?_, ?_, ?_⟩
    · rw [List.getD_eq_getElem?_getD, List.get?_eq_getElem?]
      rcases he : read.query_sequence[i]? with _ | c
      · rw [List.getElem?_eq_none_iff] at he
        omega
      · rfl
    · simp [readSym, h]
    · simp only [readSym, h]
      unfold symOfBase
      split_ifs <;> simp
  · intro read' h'
    simp [readSym, h']
  · intro c hc
    push_neg at hc
    simp [symOfBase, hc.1, hc.2.1, hc.2.2.1, hc.2.2.2]

/-- C6 witness: the forward read of the FFPE scenario, whose mapping
contains coordinate 0 at index 0; the deletion read's mapping misses
coordinate 0 (gap), and a lower-case base maps to `N`. -/
theorem c6_base_call_correct_witness :
    (∃ c, readFwdC.query_sequence.get? 0 = some c ∧
      readSym readFwdC 0 = symOfBase c ∧ readSym readFwdC 0 ≠ Sym.gap) ∧
    readSym readDel 0 = Sym.gap ∧ symOfBase 'a' = Sym.N := by
  obtain ⟨h1, h2, h3⟩ := c6_base_call_correct readFwdC 0 0 (by decide)
  exact ⟨h1, h2 readDel (by decide), h3 'a' (by decide)⟩

/-- C7 (code bug): permuting the order in which the molecule groups of
one position are processed changes the aggregated counts.  With a
paired FFPE group processed first, the stale `var_dict` variable of
`pos_checker` is also stored into the later reverse-singleton group's
`pos_res` entry, so `sup_count` counts the FFPE hit twice
(Paired `C` = 2); with the singleton group first, Paired `C` = 1. -/
theorem c7_grouping_order_changes_counts :
    altPairedCount c7_sup_order1 'C' = some 2 ∧
    altPairedCount c7_sup_order2 'C' = some 1 := by decide

/-- C8 (confirmed): for a paired group with singleton allele sets (the
only shape reaching the classifier, since `vcf_extract` skips records
whose character sets exceed one element) whose alleles are among the
six tally symbols, `ffpe_finder` populates exactly one of the four
category dicts: the branches of its `if/elif/else` chain are exhaustive
and mutually exclusive. -/
theorem c8_classification_exclusive (f_hits r_hits : Tally) (v rb : Char)
    (hv : (symOfChar v).isSome = true) (hr : (symOfChar rb).isSome = true) :
    ((if (ffpe_finder f_hits r_hits [v] [rb]).ffpe_dict = [] then 0 else 1) +
     (if (ffpe_finder f_hits r_hits [v] [rb]).mut_dict = [] then 0 else 1) +
     (if (ffpe_finder f_hits r_hits [v] [rb]).ref_dict = [] then 0 else 1) +
     (if (ffpe_finder f_hits r_hits [v] [rb]).out_dict = [] then 0 else 1)) = 1 := by
  obtain ⟨sv, hsv⟩ := Option.isSome_iff_exists.mp hv
  obtain ⟨sr, hsr⟩ := Option.isSome_iff_exists.mp hr
  rw [ffpe_finder_single]
  unfold ffpe_step
  rw [hsv]
  simp only
  by_cases h1 : f_hits.get sv > 0 ∧ r_hits.get sv > 0
  · simp [h1, VarDict.empty, dinsert]
  · by_cases h2 : f_hits.get sv > 0 ∧ r_hits.get sv = 0
    · simp [h1, h2, VarDict.empty, dinsert]
    · by_cases h3 : r_hits.get sv > 0 ∧ f_hits.get sv = 0
      · simp [h1, h2, h3, VarDict.empty, dinsert]
      · by_cases h4 : f_hits.get sr > 0 ∧ r_hits.get sr > 0
        · simp [h1, h2, h3, hsr, h4, VarDict.empty, dinsert]
        · simp [h1, h2, h3, hsr, h4, VarDict.empty, dinsert]

/-- C8 witness: the FFPE-scenario tallies with alleles `C` and `T`. -/
theorem c8_classification_exclusive_witness :
    ((if (ffpe_finder tallyC tallyT ['C'] ['T']).ffpe_dict = [] then 0 else 1) +
     (if (ffpe_finder tallyC tallyT ['C'] ['T']).mut_dict = [] then 0 else 1) +
     (if (ffpe_finder tallyC tallyT ['C'] ['T']).ref_dict = [] then 0 else 1) +
     (if (ffpe_finder tallyC tallyT ['C'] ['T']).out_dict = [] then 0 else 1)) = 1 :=
  c8_classification_exclusive tallyC tallyT 'C' 'T' (by decide) (by decide)

/-- C9 (confirmed): the tally `pos_hits` returns counts over exactly the
six symbols `A, T, G, C, N, -` (the six fields of `Tally`), and the sum
of the six counts equals the length of the read list: every read,
including one whose mapping misses the coordinate (counted under the
gap bucket), is counted exactly once. -/
theorem c9_pos_hits_total (lst : List Read) (record_pos : Nat) :
    (pos_hits lst record_pos).total = lst.length := by
  have h := pos_hits_total_aux record_pos lst Tally.zero
  simpa [pos_hits, Tally.zero, Tally.total] using h

/-- C10 (confirmed): the fetch interval of a record is always the fixed
contig `chr8` with the half-open interval `(pos-1, pos)`, and the
annotation a record receives (UMI string and FFPE flag) is unchanged by
changing its chromosome field: the chromosome has no influence on the
reads gathered or the resulting classification. -/
theorem c10_chrom_has_no_influence (bam : String × Nat × Nat → List Read)
    (record : VcfRecord) (c : String) (h : 1 ≤ record.pos) :
    fetch_interval record = ("chr8", record.pos - 1, record.pos) ∧
    record_annotation bam { record with chrom := c } =
      record_annotation bam record := by
  constructor
  · unfold fetch_interval
    have : record.pos - 1 + 1 = record.pos := by omega
    rw [this]
  · rfl

/-- C10 witness: the scenario record with its chromosome replaced. -/
theorem c10_chrom_has_no_influence_witness :
    fetch_interval rec1 = ("chr8", rec1.pos - 1, rec1.pos) ∧
    record_annotation bam1 { rec1 with chrom := "chrX" } =
      record_annotation bam1 rec1 :=
  c10_chrom_has_no_influence bam1 rec1 ("chrX") (by decide)

end Fumic
